import Mathlib

/-!
# serial_twistctl: a shallow embedding of `serial_twistctl_node.cpp`

The node subscribes to velocity commands, formats each one as an ASCII line,
writes it `send_attempts_` times to a serial port and appends one record per
attempt to a log file.  C strings and stream output are modelled as
`List Char`; the effects of the handler and of `main` are modelled as a trace
of events.
-/

namespace SerialTwistCtl

/-! ## Text rendering -/

/-- Decimal digits of a natural number, most significant first. -/
def decimal (n : Nat) : List Char := Nat.toDigits 10 n

/-- Decimal rendering of a C `int` as done by `operator<<` and by `%d`:
a leading minus sign for negative values, no padding. -/
def intDecimal : Int → List Char
  | Int.ofNat m => decimal m
  | Int.negSucc m => '-' :: decimal (m + 1)

/-- Stream insertion of an `int` with field width `w` and fill character
`fill` (`std::setw(w) << std::setfill(fill) << v`): the rendering is padded
on the left up to the width, and never shortened. -/
def putInt (w : Nat) (fill : Char) (v : Int) : List Char :=
  List.replicate (w - (intDecimal v).length) fill ++ intDecimal v

/-- A single-precision value (C `float`) by its three bit fields. -/
structure CFloat where
  sign : Bool
  expo : Fin 256
  frac : Fin 8388608
deriving DecidableEq, Repr

namespace CFloat

/-- Finite values are those whose exponent field is not all ones. -/
def isFinite (x : CFloat) : Bool := decide (x.expo.val ≠ 255)

/-- Numerator of the magnitude: the magnitude is `magNum / 2 ^ magShift`. -/
def magNum (x : CFloat) : Nat :=
  if x.expo.val = 0 then x.frac.val
  else if x.expo.val < 150 then 8388608 + x.frac.val
  else (8388608 + x.frac.val) * 2 ^ (x.expo.val - 150)

/-- Binary shift of the denominator of the magnitude. -/
def magShift (x : CFloat) : Nat :=
  if x.expo.val = 0 then 149
  else if x.expo.val < 150 then 150 - x.expo.val
  else 0

/-- The magnitude times one thousand, rounded to the nearest integer with
ties going to the even integer (the conversion of `%.3f` in the default
rounding mode; a `float` argument is promoted to `double` exactly). -/
def milli (x : CFloat) : Nat :=
  let p := x.magNum * 1000
  let q := p / 2 ^ x.magShift
  let r := p % 2 ^ x.magShift
  if 2 * r > 2 ^ x.magShift ∨ (2 * r = 2 ^ x.magShift ∧ q % 2 = 1) then q + 1 else q

end CFloat

/-- Three decimal digits of a number below one thousand, zero padded. -/
def frac3 (n : Nat) : List Char :=
  [Nat.digitChar (n / 100 % 10), Nat.digitChar (n / 10 % 10), Nat.digitChar (n % 10)]

/-- The sign prefix printed for a value whose sign bit is set. -/
def signText (s : Bool) : List Char := if s then ['-'] else []

/-- The conversion `%.3f` of the C library applied to a `float` argument:
sign, integer digits, a point and three fractional digits for finite values,
`inf` or `nan` otherwise. -/
def fmt_f3 (x : CFloat) : List Char :=
  if x.isFinite then
    signText x.sign ++ decimal (x.milli / 1000) ++ '.' :: frac3 (x.milli % 1000)
  else if x.frac.val = 0 then signText x.sign ++ "inf".toList
  else signText x.sign ++ "nan".toList

/-- The expansion of the format string `"vcx=%.3f,wc=%.3f\n"` for two
arguments, before any size limit is applied. -/
def formatLine (linear_x angular_z : CFloat) : List Char :=
  "vcx=".toList ++ fmt_f3 linear_x ++ ",wc=".toList ++ fmt_f3 angular_z ++ ['\n']

/-- The characters `snprintf(buf, size, ...)` leaves in `buf` before the
terminating NUL: at most `size - 1` characters of the expansion. -/
def snprintf (size : Nat) (expansion : List Char) : List Char :=
  expansion.take (size - 1)

/-- The `command` buffer of `twist_callback`: `char command[50]` filled by
`snprintf(command, sizeof(command), "vcx=%.3f,wc=%.3f\n", linear_x, angular_z)`. -/
def command (linear_x angular_z : CFloat) : List Char :=
  snprintf 50 (formatLine linear_x angular_z)

/-- Consumes one number of the shape `-?\d+\.\d{3}` from the front of `s`
and returns what follows it, `none` when `s` does not start with one. -/
def fixed3Rest (s : List Char) : Option (List Char) :=
  let s1 := if s.head? = some '-' then s.tail else s
  let s2 := s1.dropWhile Char.isDigit
  if s2.length < s1.length then
    match s2 with
    | p :: a :: b :: c :: rest =>
      if p = '.' ∧ a.isDigit ∧ b.isDigit ∧ c.isDigit then some rest else none
    | _ => none
  else none

/-- Whether `s` is one number of the shape `-?\d+\.\d{3}` and nothing more. -/
def isFixed3 (s : List Char) : Bool := fixed3Rest s = some []

/-- Whether `s` matches `vcx=-?\d+\.\d{3},wc=-?\d+\.\d{3}\n` as a whole. -/
def matchesWire (s : List Char) : Bool :=
  match s with
  | k1 :: k2 :: k3 :: k4 :: s1 =>
    if [k1, k2, k3, k4] = "vcx=".toList then
      match fixed3Rest s1 with
      | some (j1 :: j2 :: j3 :: j4 :: s2) =>
        if [j1, j2, j3, j4] = ",wc=".toList then fixed3Rest s2 = some ['\n'] else false
      | _ => false
    else false
  | _ => false

/-- The value `1.0f`. -/
def f_one : CFloat := ⟨false, 127, 0⟩
/-- The value `-0.25f`. -/
def f_negQuarter : CFloat := ⟨true, 125, 0⟩
/-- The value `0.5f`. -/
def f_half : CFloat := ⟨false, 126, 0⟩
/-- The value `0.0f`. -/
def f_zero : CFloat := ⟨false, 0, 0⟩
/-- The largest finite value, `FLT_MAX = (2^24 - 1) * 2^104`. -/
def f_max : CFloat := ⟨false, 254, 8388607⟩
/-- The value `2^54 = 18014398509481984.0f`. -/
def f_two54 : CFloat := ⟨false, 181, 0⟩

/-! ## Start-up time and the log file name -/

/-- The fields of `std::tm` read by the constructor (C `int` values). -/
structure Tm where
  tm_sec : Int
  tm_min : Int
  tm_hour : Int
  tm_mday : Int
  tm_mon : Int
  tm_year : Int
deriving DecidableEq, Repr

/-- The directory the log file is created in. -/
def log_dir : List Char := "/home/jetson/ros2_ws/src/serial_twistctl/twist_record/".toList

/-- The file name component built by `filename_stream`: the year is inserted
with no width set, every later number with `std::setw(2)` and fill `'0'`. -/
def log_file_name (now_tm : Tm) : List Char :=
  "log_".toList
    ++ putInt 0 ' ' (now_tm.tm_year + 1900)
    ++ putInt 2 '0' (now_tm.tm_mon + 1)
    ++ putInt 2 '0' now_tm.tm_mday
    ++ "_".toList
    ++ putInt 2 '0' now_tm.tm_hour
    ++ putInt 2 '0' now_tm.tm_min
    ++ putInt 2 '0' now_tm.tm_sec
    ++ ".txt".toList

/-- The whole string passed to `log_file_.open`. -/
def log_path (now_tm : Tm) : List Char := log_dir ++ log_file_name now_tm

/-- The zero-padded 2-digit decimal rendering, as the specification words it. -/
def pad2_spec (n : Nat) : List Char := [Nat.digitChar (n / 10), Nat.digitChar (n % 10)]

/-! ## Effects -/

/-- What one call of `serial_port_.write` does: it returns the number of
bytes written (fewer than requested when the write timed out), or it throws
(`serial::IOException`, `serial::SerialException`, `serial::PortNotOpenedException`). -/
inductive WriteResult where
  | returned (bytes : Nat)
  | threw
deriving DecidableEq, Repr

/-- What `serial_port_.open()` does: it returns, throws `serial::IOException`,
or throws another exception derived from `std::exception`. -/
inductive OpenResult where
  | returned
  | ioException
  | otherException
deriving DecidableEq, Repr

/-- The observable actions of the program, in program order.  The texts of
caught exceptions (`e.what()`) that the program appends to a message are
left out of the message. -/
inductive Event where
  | rosInit
  | logOpen (path : List Char)
  | rosError (text : List Char)
  | rosInfo (text : List Char)
  | serialOpen (port : List Char) (baud : Int) (timeoutMs : Nat)
  | subscribe (topic : List Char) (depth : Nat)
  | serialWrite (data : List Char)
  | logRecord (text : List Char)
  | sleepMs (ms : Int)
  | serialClose
  | logClose
  | cerr (text : List Char)
  | rosShutdown
deriving DecidableEq, Repr

/-- How a piece of code was left. -/
inductive Exit where
  | returned
  | threw
  | outOfFuel
deriving DecidableEq, Repr

/-- The member variables of the node that the handler reads. -/
structure SerialTwistCtlNode where
  log_file_is_open : Bool
  port_ : List Char
  baudrate_ : Int
  send_attempts_ : Int
  delay_between_attempts_ms_ : Int
deriving DecidableEq, Repr

/-- Narrowing of the 64-bit parameter value returned by `as_int()` to `int`. -/
def toInt32 (v : Int) : Int := (v + 2 ^ 31) % 2 ^ 32 - 2 ^ 31

/-- Everything outside the program that start-up depends on. -/
structure StartupEnv where
  now_tm : Tm
  log_open_ok : Bool
  port : List Char
  baudrate : Int
  send_attempts : Int
  delay_between_attempts_ms : Int
  serial_open : OpenResult
  serial_isOpen : Bool

/-- The constructor `SerialTwistCtlNode::SerialTwistCtlNode`: the events it
performs and the node it builds, `none` when it throws. -/
def construct (env : StartupEnv) : List Event × Option SerialTwistCtlNode :=
  let opened := Event.logOpen (log_path env.now_tm)
  if ¬ env.log_open_ok then
    ([opened, Event.rosError "无法打开日志文件".toList], none)
  else
    let port_ := env.port
    let baudrate_ := toInt32 env.baudrate
    let send_attempts_ := toInt32 env.send_attempts
    let delay_between_attempts_ms_ := toInt32 env.delay_between_attempts_ms
    let tried := Event.serialOpen port_ baudrate_ 1000
    match env.serial_open with
    | OpenResult.ioException =>
      ([opened, tried, Event.rosError ("无法打开串口 ".toList ++ port_)], none)
    | OpenResult.otherException => ([opened, tried], none)
    | OpenResult.returned =>
      if ¬ env.serial_isOpen then
        ([opened, tried, Event.rosError "串口未成功打开！".toList], none)
      else
        ([opened, tried,
          Event.rosInfo ("串口 ".toList ++ port_ ++ " 已成功打开.".toList),
          Event.subscribe "traj".toList 10,
          Event.rosInfo "serial_twistctl_node 节点已启动，正在订阅话题...".toList],
         some ⟨true, port_, baudrate_, send_attempts_, delay_between_attempts_ms_⟩)

/-- The text inserted into `log_file_` for one attempt: the label, the
attempt number `i+1`, the attempt count, the `command` buffer and `std::endl`. -/
def logText (attempt count : Int) (cmd : List Char) : List Char :=
  "发送命令 (".toList ++ intDecimal attempt ++ "/".toList ++ intDecimal count
    ++ "): ".toList ++ cmd ++ ['\n']

/-- The console message of one attempt (`"发送命令 (%d/%d): %s"`). -/
def infoText (attempt count : Int) (cmd : List Char) : List Char :=
  "发送命令 (".toList ++ intDecimal attempt ++ "/".toList ++ intDecimal count
    ++ "): ".toList ++ cmd

/-- The events of one loop iteration whose write returns, for loop index `i`. -/
def attemptEvents (self : SerialTwistCtlNode) (cmd : List Char) (i : Int) : List Event :=
  Event.serialWrite cmd
    :: (if self.log_file_is_open then [Event.logRecord (logText (i + 1) self.send_attempts_ cmd)]
        else [])
    ++ [Event.rosInfo (infoText (i + 1) self.send_attempts_ cmd),
        Event.sleepMs self.delay_between_attempts_ms_]

/-- The loop `for (int i = 0; i < send_attempts_; ++i)` of `twist_callback`,
entered at index `i`.  The body has no `try`: a write that throws leaves the
loop and the handler at once.  `io k` is what the write of index `k` does. -/
def sendLoop (self : SerialTwistCtlNode) (cmd : List Char) (io : Nat → WriteResult) :
    Nat → Int → List Event × Exit
  | 0, _ => ([], Exit.outOfFuel)
  | fuel + 1, i =>
    if i < self.send_attempts_ then
      match io i.toNat with
      | WriteResult.threw => ([Event.serialWrite cmd], Exit.threw)
      | WriteResult.returned _ =>
        let rest := sendLoop self cmd io fuel (i + 1)
        (attemptEvents self cmd i ++ rest.1, rest.2)
    else ([], Exit.returned)

/-- The handler `twist_callback`, given the two `float` locals `linear_x` and
`angular_z` (the message fields after their narrowing to `float`). -/
def twist_callback (self : SerialTwistCtlNode) (linear_x angular_z : CFloat)
    (io : Nat → WriteResult) : List Event × Exit :=
  sendLoop self (command linear_x angular_z) io (self.send_attempts_.toNat + 1) 0

/-- One delivered message: the two `float` values and the behaviour of the
serial writes made while it is handled. -/
structure Delivery where
  linear_x : CFloat
  angular_z : CFloat
  io : Nat → WriteResult

/-- The executor loop `rclcpp::spin(node)`: each delivered message is handled in
arrival order; an exception leaving the handler leaves `spin`; when no
message is left the executor has been shut down and `spin` returns. -/
def spin (node : SerialTwistCtlNode) : List Delivery → List Event × Exit
  | [] => ([], Exit.returned)
  | m :: rest =>
    let r := twist_callback node m.linear_x m.angular_z m.io
    match r.2 with
    | Exit.returned =>
      let s := spin node rest
      (r.1 ++ s.1, s.2)
    | e => (r.1, e)

/-- The destructor `~SerialTwistCtlNode` of a constructed node. -/
def destruct (self : SerialTwistCtlNode) : List Event :=
  [Event.serialClose, Event.rosInfo "串口已关闭.".toList]
    ++ (if self.log_file_is_open then [Event.logClose] else [])

/-- The function `main`: its events and the status it returns.  Every
exception raised in the `try` block is caught by `catch (const std::exception&)`;
the statement after the handler is `rclcpp::shutdown(); return 0;`. -/
def main (env : StartupEnv) (msgs : List Delivery) : List Event × Int :=
  let c := construct env
  let body : List Event × Exit :=
    match c.2 with
    | none => (c.1, Exit.threw)
    | some node =>
      let s := spin node msgs
      (c.1 ++ s.1 ++ destruct node, s.2)
  let caught : List Event :=
    match body.2 with
    | Exit.returned => []
    | _ => [Event.cerr "节点启动失败: ".toList]
  (Event.rosInit :: body.1 ++ caught ++ [Event.rosShutdown], 0)

/-! ## Projections of a trace -/

/-- The byte strings passed to the serial write, in order. -/
def writesOf : List Event → List (List Char)
  | [] => []
  | Event.serialWrite d :: es => d :: writesOf es
  | _ :: es => writesOf es

/-- The texts appended to the log file, in order. -/
def recordsOf : List Event → List (List Char)
  | [] => []
  | Event.logRecord t :: es => t :: recordsOf es
  | _ :: es => recordsOf es

/-- The durations of the sleeps, in order. -/
def sleepsOf : List Event → List Int
  | [] => []
  | Event.sleepMs d :: es => d :: sleepsOf es
  | _ :: es => sleepsOf es

/-- The serial writes and log records of a trace, in order, other events dropped. -/
def wireOf : List Event → List Event
  | [] => []
  | Event.serialWrite d :: es => Event.serialWrite d :: wireOf es
  | Event.logRecord t :: es => Event.logRecord t :: wireOf es
  | _ :: es => wireOf es

/-- Whether a trace creates the subscription. -/
def subscribes : List Event → Bool
  | [] => false
  | Event.subscribe _ _ :: _ => true
  | _ :: es => subscribes es

/-- A start-up environment in which everything succeeds, with the given
attempt count and delay. -/
def goodEnv (attempts delay : Int) : StartupEnv :=
  ⟨⟨5, 4, 3, 2, 0, 124⟩, true, "/dev/ttyACM0".toList, 115200, attempts, delay,
    OpenResult.returned, true⟩

/-- The node built from `goodEnv`. -/
def goodNode (attempts delay : Int) : SerialTwistCtlNode :=
  ⟨true, "/dev/ttyACM0".toList, 115200, attempts, delay⟩

/-- Writes that always return the full length requested. -/
def ioOk : Nat → WriteResult := fun _ => WriteResult.returned 19

/-- Writes whose attempt of index `k` throws, the others returning. -/
def ioThrowAt (k : Nat) : Nat → WriteResult :=
  fun j => if j = k then WriteResult.threw else WriteResult.returned 19

/-- Writes whose attempt of index `k` times out after `b` bytes, the others
returning the full length. -/
def ioShortAt (k b : Nat) : Nat → WriteResult :=
  fun j => if j = k then WriteResult.returned b else WriteResult.returned 19

/-- A start-up environment whose log file cannot be opened. -/
def logFailEnv : StartupEnv :=
  ⟨⟨5, 4, 3, 2, 0, 124⟩, false, "/dev/ttyACM0".toList, 115200, 1, 0, OpenResult.returned, true⟩

/-- A start-up environment whose serial open call throws `serial::IOException`. -/
def serialFailEnv : StartupEnv :=
  ⟨⟨5, 4, 3, 2, 0, 124⟩, true, "/dev/ttyACM0".toList, 115200, 1, 0, OpenResult.ioException, false⟩

/-- The text the specification gives for the log record of attempt `i` of `n`. -/
def logText_spec (i n : Nat) (body : List Char) : List Char :=
  "Sent command (".toList ++ decimal i ++ "/".toList ++ decimal n ++ "): ".toList
    ++ body ++ "\n".toList

/-! ## Lemmas on decimal rendering -/

theorem toDigitsCore_acc (f n : Nat) (ds : List Char) :
    Nat.toDigitsCore 10 f n ds = Nat.toDigitsCore 10 f n [] ++ ds := by
  induction f generalizing n ds with
  | zero => simp [Nat.toDigitsCore]
  | succ f ih =>
    simp only [Nat.toDigitsCore]
    split
    · simp
    · rw [ih (n / 10) (Nat.digitChar (n % 10) :: ds), ih (n / 10) [Nat.digitChar (n % 10)]]
      simp

theorem toDigitsCore_fuel (f g n : Nat) (ds : List Char) (hf : n < f) (hg : n < g) :
    Nat.toDigitsCore 10 f n ds = Nat.toDigitsCore 10 g n ds := by
  induction f generalizing g n ds with
  | zero => omega
  | succ f ih =>
    cases g with
    | zero => omega
    | succ g =>
      simp only [Nat.toDigitsCore]
      split
      · rfl
      · rename_i h
        have : n / 10 < n := by omega
        exact ih g (n / 10) _ (by omega) (by omega)

theorem decimal_lt_ten (n : Nat) (h : n < 10) : decimal n = [Nat.digitChar n] := by
  have h0 : n / 10 = 0 := by omega
  have h1 : n % 10 = n := by omega
  simp [decimal, Nat.toDigits, Nat.toDigitsCore, h0, h1]

theorem decimal_ge_ten (n : Nat) (h : 10 ≤ n) :
    decimal n = decimal (n / 10) ++ [Nat.digitChar (n % 10)] := by
  have h0 : n / 10 ≠ 0 := by omega
  have step : Nat.toDigitsCore 10 (n + 1) n []
      = Nat.toDigitsCore 10 n (n / 10) [Nat.digitChar (n % 10)] := by
    simp only [Nat.toDigitsCore, h0, if_false]
  show Nat.toDigitsCore 10 (n + 1) n []
    = Nat.toDigitsCore 10 (n / 10 + 1) (n / 10) [] ++ [Nat.digitChar (n % 10)]
  rw [step, toDigitsCore_acc, toDigitsCore_fuel n (n / 10 + 1) (n / 10) [] (by omega) (by omega)]

theorem digitChar_isDigit (k : Nat) (h : k < 10) : (Nat.digitChar k).isDigit = true := by
  interval_cases k <;> decide

theorem decimal_digits (n : Nat) : ∀ c ∈ decimal n, c.isDigit = true := by
  induction n using Nat.strong_induction_on with
  | _ n ih =>
    by_cases h : n < 10
    · rw [decimal_lt_ten n h]
      intro c hc
      simp at hc
      subst hc
      exact digitChar_isDigit n h
    · rw [decimal_ge_ten n (by omega)]
      intro c hc
      simp at hc
      rcases hc with hc | hc
      · exact ih (n / 10) (by omega) c hc
      · subst hc
        exact digitChar_isDigit _ (Nat.mod_lt _ (by decide))

theorem decimal_ne_nil (n : Nat) : decimal n ≠ [] := by
  by_cases h : n < 10
  · rw [decimal_lt_ten n h]; simp
  · rw [decimal_ge_ten n (by omega)]; simp

theorem decimal_length_le (n e : Nat) (he : 0 < e) (h : n < 10 ^ e) :
    (decimal n).length ≤ e := by
  induction e generalizing n with
  | zero => omega
  | succ e ih =>
    by_cases h10 : n < 10
    · rw [decimal_lt_ten n h10]; simp
    · rw [decimal_ge_ten n (by omega)]
      have he' : 0 < e := by
        rcases Nat.eq_zero_or_pos e with h0 | h0
        · subst h0; simp at h; omega
        · exact h0
      have : n / 10 < 10 ^ e := by
        rw [Nat.div_lt_iff_lt_mul (by decide)]
        rw [pow_succ] at h; exact h
      have := ih (n / 10) he' this
      simp; omega

theorem putInt_two (m : Nat) (h : m < 100) : putInt 2 '0' (m : Int) = pad2_spec m := by
  revert m
  decide

theorem dropWhile_digits_point (ds rest : List Char) (h : ∀ c ∈ ds, c.isDigit = true) :
    (ds ++ '.' :: rest).dropWhile Char.isDigit = '.' :: rest := by
  induction ds with
  | nil =>
    have hp : Char.isDigit '.' = false := by decide
    simp [List.dropWhile, hp]
  | cons d ds ih =>
    have hd : d.isDigit = true := h d (by simp)
    simp only [List.cons_append, List.dropWhile, hd]
    exact ih (fun c hc => h c (by simp [hc]))

theorem frac3_digits (n : Nat) (rest : List Char) :
    ∃ a b c, frac3 n ++ rest = a :: b :: c :: rest
      ∧ a.isDigit = true ∧ b.isDigit = true ∧ c.isDigit = true :=
  ⟨_, _, _, rfl, digitChar_isDigit _ (Nat.mod_lt _ (by decide)),
    digitChar_isDigit _ (Nat.mod_lt _ (by decide)), digitChar_isDigit _ (Nat.mod_lt _ (by decide))⟩

theorem fixed3Rest_of_parts (s1 ds : List Char) (a b c : Char) (rest : List Char)
    (hne : ds ≠ []) (h : ∀ c ∈ ds, c.isDigit = true)
    (ha : a.isDigit = true) (hb : b.isDigit = true) (hc : c.isDigit = true)
    (hs : (if s1.head? = some '-' then s1.tail else s1) = ds ++ '.' :: a :: b :: c :: rest) :
    fixed3Rest s1 = some rest := by
  have hlen : 0 < ds.length := List.length_pos.mpr hne
  have hdrop := dropWhile_digits_point ds (a :: b :: c :: rest) h
  have hlt : ('.' :: a :: b :: c :: rest).length < (ds ++ '.' :: a :: b :: c :: rest).length := by
    simp only [List.length_append, List.length_cons]
    omega
  unfold fixed3Rest
  simp only [hs, hdrop, hlt, if_true, ha, hb, hc, and_self]

theorem fixed3Rest_digits (ds : List Char) (n : Nat) (rest : List Char)
    (hne : ds ≠ []) (h : ∀ c ∈ ds, c.isDigit = true) :
    fixed3Rest (ds ++ '.' :: (frac3 n ++ rest)) = some rest := by
  obtain ⟨a, b, c, hf, ha, hb, hc⟩ := frac3_digits n rest
  rw [hf]
  refine fixed3Rest_of_parts _ ds a b c rest hne h ha hb hc ?_
  cases ds with
  | nil => exact absurd rfl hne
  | cons d ds =>
    have hd : d.isDigit = true := h d (by simp)
    have hne' : d ≠ '-' := by
      intro hh
      subst hh
      exact absurd hd (by decide)
    simp [hne']

theorem fixed3Rest_minus (ds : List Char) (n : Nat) (rest : List Char)
    (hne : ds ≠ []) (h : ∀ c ∈ ds, c.isDigit = true) :
    fixed3Rest ('-' :: (ds ++ '.' :: (frac3 n ++ rest))) = some rest := by
  obtain ⟨a, b, c, hf, ha, hb, hc⟩ := frac3_digits n rest
  rw [hf]
  exact fixed3Rest_of_parts _ ds a b c rest hne h ha hb hc (by simp)

theorem fixed3Rest_fmt (x : CFloat) (rest : List Char) (hx : x.isFinite = true) :
    fixed3Rest (fmt_f3 x ++ rest) = some rest := by
  unfold fmt_f3
  simp only [hx, if_true]
  cases x.sign with
  | false =>
    simpa [signText] using
      fixed3Rest_digits (decimal (x.milli / 1000)) (x.milli % 1000) rest
        (decimal_ne_nil _) (decimal_digits _)
  | true =>
    simpa [signText] using
      fixed3Rest_minus (decimal (x.milli / 1000)) (x.milli % 1000) rest
        (decimal_ne_nil _) (decimal_digits _)

theorem matchesWire_formatLine (x z : CFloat) (hx : x.isFinite = true) (hz : z.isFinite = true) :
    matchesWire (formatLine x z) = true := by
  have h1 := fixed3Rest_fmt x (",wc=".toList ++ fmt_f3 z ++ ['\n']) hx
  have h2 := fixed3Rest_fmt z ['\n'] hz
  have e : formatLine x z
      = 'v' :: 'c' :: 'x' :: '=' :: (fmt_f3 x ++ (",wc=".toList ++ fmt_f3 z ++ ['\n'])) := by
    simp [formatLine]
  rw [e]
  simp only [matchesWire, h1]
  simpa using h2

/-! ## The command line and its size limit -/

theorem milli_le (x : CFloat) : x.milli ≤ x.magNum * 1000 + 1 := by
  unfold CFloat.milli
  have h : x.magNum * 1000 / 2 ^ x.magShift ≤ x.magNum * 1000 := Nat.div_le_self _ _
  simp only
  split <;> omega

theorem magNum_lt (x : CFloat) (h : x.expo.val ≤ 175) : x.magNum < 2 ^ 49 := by
  have hf : x.frac.val < 8388608 := x.frac.isLt
  unfold CFloat.magNum
  split
  · omega
  · split
    · omega
    · have hp : 2 ^ (x.expo.val - 150) ≤ 2 ^ 25 :=
        Nat.pow_le_pow_right (by decide) (by omega)
      calc (8388608 + x.frac.val) * 2 ^ (x.expo.val - 150)
          ≤ (8388608 + x.frac.val) * 2 ^ 25 := Nat.mul_le_mul_left _ hp
        _ < 2 ^ 49 := by omega

theorem fmt_f3_length_le (x : CFloat) (h : x.expo.val ≤ 175) : (fmt_f3 x).length ≤ 20 := by
  have hfin : x.isFinite = true := by
    simp only [CFloat.isFinite, decide_eq_true_eq]
    omega
  have hm := milli_le x
  have hn := magNum_lt x h
  have hq : x.milli / 1000 < 10 ^ 15 := by
    rw [Nat.div_lt_iff_lt_mul (by decide)]
    norm_num at hn ⊢
    omega
  have hd := decimal_length_le (x.milli / 1000) 15 (by decide) hq
  have hs : (signText x.sign).length ≤ 1 := by
    cases x.sign <;> simp [signText]
  unfold fmt_f3
  simp only [hfin, if_true, List.length_append, List.length_cons, frac3, List.length_nil]
  omega

theorem formatLine_length (x z : CFloat) :
    (formatLine x z).length = (fmt_f3 x).length + (fmt_f3 z).length + 9 := by
  simp [formatLine]
  omega

theorem command_of_fits (x z : CFloat) (h : (formatLine x z).length ≤ 49) :
    command x z = formatLine x z := by
  unfold command snprintf
  exact List.take_of_length_le h

/-- C3 (as the code has it): for every finite pair the expansion of the
format string is `vcx=` ++ f(linear_x) ++ `,wc=` ++ f(angular_z) ++ newline
with f of the shape `-?\d+\.\d{3}`, so the expansion matches the wire
pattern; the handler's line is the first 49 characters of that expansion, and
is the whole expansion whenever the expansion has at most 49 characters, in
particular whenever both magnitudes are below 2^49 (exponent field at most
175); for (1.0, -0.25) the line is `vcx=1.000,wc=-0.250` and a newline. -/
theorem command_is_truncated_formatLine (x z : CFloat)
    (hx : x.isFinite = true) (hz : z.isFinite = true) :
    formatLine x z = "vcx=".toList ++ fmt_f3 x ++ ",wc=".toList ++ fmt_f3 z ++ "\n".toList
    ∧ isFixed3 (fmt_f3 x) = true ∧ isFixed3 (fmt_f3 z) = true
    ∧ matchesWire (formatLine x z) = true
    ∧ command x z = (formatLine x z).take 49
    ∧ ((formatLine x z).length ≤ 49 → command x z = formatLine x z)
    ∧ (x.expo.val ≤ 175 → z.expo.val ≤ 175 → command x z = formatLine x z)
    ∧ command f_one f_negQuarter = "vcx=1.000,wc=-0.250\n".toList := by
  refine ⟨rfl, ?_, ?_, matchesWire_formatLine x z hx hz, rfl, command_of_fits x z, ?_, by decide⟩
  · have := fixed3Rest_fmt x [] hx
    simpa [isFixed3] using this
  · have := fixed3Rest_fmt z [] hz
    simpa [isFixed3] using this
  · intro h1 h2
    apply command_of_fits
    have a := fmt_f3_length_le x h1
    have b := fmt_f3_length_le z h2
    rw [formatLine_length]
    omega

/-- Witness of `command_is_truncated_formatLine` at (1.0, -0.25). -/
theorem command_is_truncated_formatLine_witness :
    f_one.isFinite = true ∧ f_negQuarter.isFinite = true
    ∧ matchesWire (formatLine f_one f_negQuarter) = true
    ∧ command f_one f_negQuarter = formatLine f_one f_negQuarter :=
  ⟨by decide, by decide,
    (command_is_truncated_formatLine f_one f_negQuarter (by decide) (by decide)).2.2.2.1,
    (command_is_truncated_formatLine f_one f_negQuarter (by decide) (by decide)).2.2.2.2.2.2.1
      (by decide) (by decide)⟩

/-- C3 as stated fails: for the finite pair (2^54, 2^54) the expansion has 51
characters, the handler's line is cut to 49, is not the expansion, does not
end with the newline and does not match the wire pattern. -/
theorem command_truncated_at_two54 :
    f_two54.isFinite = true
    ∧ (formatLine f_two54 f_two54).length = 51
    ∧ command f_two54 f_two54 ≠ formatLine f_two54 f_two54
    ∧ (command f_two54 f_two54).getLast? = some '0'
    ∧ matchesWire (command f_two54 f_two54) = false := by
  decide

theorem magNum_lt_128 (x : CFloat) (hfin : x.isFinite = true) : x.magNum < 2 ^ 128 := by
  have hf : x.frac.val < 8388608 := x.frac.isLt
  have he : x.expo.val < 256 := x.expo.isLt
  have hne : x.expo.val ≠ 255 := by
    simpa [CFloat.isFinite] using hfin
  unfold CFloat.magNum
  split
  · omega
  · split
    · omega
    · have hexp : x.expo.val - 150 ≤ 104 := by omega
      have hp : 2 ^ (x.expo.val - 150) ≤ 2 ^ 104 :=
        Nat.pow_le_pow_right (by decide) hexp
      have hlt : (8388608 + x.frac.val) * 2 ^ 104 < 16777216 * 2 ^ 104 :=
        Nat.mul_lt_mul_of_pos_right (by omega) (by positivity)
      calc (8388608 + x.frac.val) * 2 ^ (x.expo.val - 150)
          ≤ (8388608 + x.frac.val) * 2 ^ 104 := Nat.mul_le_mul_left _ hp
        _ < 16777216 * 2 ^ 104 := hlt
        _ = 2 ^ 128 := by norm_num

theorem fmt_f3_length_le_44 (x : CFloat) : (fmt_f3 x).length ≤ 44 := by
  have hs : (signText x.sign).length ≤ 1 := by
    cases x.sign <;> simp [signText]
  unfold fmt_f3
  split
  · rename_i hfin
    have hm := milli_le x
    have hn := magNum_lt_128 x hfin
    have hq : x.milli / 1000 < 10 ^ 39 := by
      rw [Nat.div_lt_iff_lt_mul (by decide)]
      norm_num at hn ⊢
      omega
    have hd := decimal_length_le (x.milli / 1000) 39 (by decide) hq
    simp only [List.length_append, List.length_cons, frac3, List.length_nil]
    omega
  · split
    · simp only [List.length_append]
      have : "inf".toList.length = 3 := rfl
      omega
    · simp only [List.length_append]
      have : "nan".toList.length = 3 := rfl
      omega

theorem signText_no_newline (b : Bool) : '\n' ∉ signText b := by
  cases b <;> simp [signText]

theorem digit_ne_newline (c : Char) (h : c.isDigit = true) : c ≠ '\n' := by
  intro hc
  subst hc
  exact absurd h (by decide)

theorem fmt_f3_no_newline (x : CFloat) : '\n' ∉ fmt_f3 x := by
  have hs := signText_no_newline x.sign
  unfold fmt_f3
  split
  · intro hmem
    simp only [List.mem_append, List.mem_cons] at hmem
    rcases hmem with (h | h) | h | h
    · exact hs h
    · exact digit_ne_newline _ (decimal_digits _ _ h) rfl
    · exact absurd h (by decide)
    · obtain ⟨a, b, c, hf, ha, hb, hc⟩ := frac3_digits (x.milli % 1000) []
      rw [List.append_nil] at hf
      rw [hf] at h
      simp only [List.mem_cons, List.mem_nil_iff, or_false] at h
      rcases h with h | h | h
      · exact digit_ne_newline a ha h.symm
      · exact digit_ne_newline b hb h.symm
      · exact digit_ne_newline c hc h.symm
  · split
    · intro hmem
      simp only [List.mem_append] at hmem
      rcases hmem with h | h
      · exact hs h
      · exact absurd h (by decide)
    · intro hmem
      simp only [List.mem_append] at hmem
      rcases hmem with h | h
      · exact hs h
      · exact absurd h (by decide)

theorem formatLine_body_no_newline (x z : CFloat) :
    '\n' ∉ "vcx=".toList ++ fmt_f3 x ++ ",wc=".toList ++ fmt_f3 z := by
  intro hmem
  simp only [List.mem_append] at hmem
  rcases hmem with ((h | h) | h) | h
  · exact absurd h (by decide)
  · exact fmt_f3_no_newline x h
  · exact absurd h (by decide)
  · exact fmt_f3_no_newline z h

/-- C9 (as the code has it): for every pair of `float` values, infinities and
NaNs included, the characters handed to the serial write are at most 49 and
a prefix of the formatted line, so with the terminating NUL they fit the
50-byte buffer; the formatted line with its newline terminator has up to 97
characters; it is handed over whole, newline last, exactly when it has at
most 49 characters (as when both exponent fields are at most 175), and a
longer line is cut to exactly 49 characters that hold no newline. -/
theorem command_cut_to_buffer (x z : CFloat) :
    (command x z).length ≤ 49
    ∧ (command x z).length + 1 ≤ 50
    ∧ command x z <+: formatLine x z
    ∧ (formatLine x z).length ≤ 97
    ∧ ((formatLine x z).length ≤ 49 ↔ command x z = formatLine x z)
    ∧ ((formatLine x z).length ≤ 49 → (command x z).getLast? = some '\n')
    ∧ (x.expo.val ≤ 175 → z.expo.val ≤ 175 → (formatLine x z).length ≤ 49)
    ∧ (49 < (formatLine x z).length →
        (command x z).length = 49 ∧ '\n' ∉ command x z) := by
  have hlen : (command x z).length = min 49 (formatLine x z).length := by
    unfold command snprintf
    exact List.length_take _ _
  have hbody : formatLine x z
      = ("vcx=".toList ++ fmt_f3 x ++ ",wc=".toList ++ fmt_f3 z) ++ ['\n'] := rfl
  refine ⟨by omega, by omega, List.take_prefix _ _, ?_, ⟨command_of_fits x z, ?_⟩, ?_, ?_, ?_⟩
  · have a := fmt_f3_length_le_44 x
    have b := fmt_f3_length_le_44 z
    rw [formatLine_length]
    omega
  · intro h
    rw [h] at hlen
    omega
  · intro h
    rw [command_of_fits x z h, hbody, List.getLast?_append]
    rfl
  · intro h1 h2
    have a := fmt_f3_length_le x h1
    have b := fmt_f3_length_le z h2
    rw [formatLine_length]
    omega
  · intro h
    refine ⟨by omega, ?_⟩
    have hb : 49 ≤ ("vcx=".toList ++ fmt_f3 x ++ ",wc=".toList ++ fmt_f3 z).length := by
      rw [hbody, List.length_append] at h
      simp only [List.length_cons, List.length_nil] at h
      omega
    have hc : command x z
        = ("vcx=".toList ++ fmt_f3 x ++ ",wc=".toList ++ fmt_f3 z).take 49 := by
      unfold command snprintf
      rw [hbody]
      exact List.take_append_of_le_length hb
    rw [hc]
    intro hmem
    exact formatLine_body_no_newline x z (List.mem_of_mem_take hmem)

/-- Witness of `command_cut_to_buffer`: for (2^54, 2^54) the formatted line
has 51 characters and the 49 handed to the write hold no newline. -/
theorem command_cut_to_buffer_witness :
    49 < (formatLine f_two54 f_two54).length
    ∧ (command f_two54 f_two54).length = 49
    ∧ '\n' ∉ command f_two54 f_two54 :=
  ⟨by decide, (command_cut_to_buffer f_two54 f_two54).2.2.2.2.2.2.2 (by decide)⟩

/-- C9 as stated fails: for the largest finite magnitudes the formatted line
with its newline terminator has 95 characters, not at most 49, and the 49
characters handed to the serial write are a fragment without the newline. -/
theorem command_at_float_max :
    f_max.isFinite = true
    ∧ (formatLine f_max f_max).length = 95
    ∧ (command f_max f_max).length = 49
    ∧ (command f_max f_max).contains '\n' = false
    ∧ command f_max f_max ≠ formatLine f_max f_max := by
  decide

/-! ## The log file name -/

theorem putInt_year (y : Int) : putInt 0 ' ' y = intDecimal y := by
  simp [putInt]

theorem decimal_length_four (y : Nat) (h1 : 1000 ≤ y) (h2 : y ≤ 9999) :
    (decimal y).length = 4 := by
  rw [decimal_ge_ten y (by omega), decimal_ge_ten (y / 10) (by omega),
    decimal_ge_ten (y / 10 / 10) (by omega), decimal_lt_ten (y / 10 / 10 / 10) (by omega)]
  rfl

/-- C10: the file name depends on the start time only, and for every year,
month 1..12 and two-digit day, hour, minute and second it is `log_`, the
decimal year, the zero-padded two-digit month and day, `_`, the
zero-padded two-digit hour, minute and second, and `.txt`; with a four-digit
year it has exactly 23 characters. -/
theorem log_file_name_format (year : Int) (month day hour minute second : Nat)
    (hmon : 1 ≤ month ∧ month ≤ 12) (hday : day ≤ 99) (hhour : hour ≤ 99)
    (hmin : minute ≤ 99) (hsec : second ≤ 99) :
    log_file_name ⟨second, minute, hour, day, (month : Int) - 1, year - 1900⟩
      = "log_".toList ++ intDecimal year ++ pad2_spec month ++ pad2_spec day ++ "_".toList
          ++ pad2_spec hour ++ pad2_spec minute ++ pad2_spec second ++ ".txt".toList
    ∧ (1000 ≤ year → year ≤ 9999 →
        (log_file_name ⟨second, minute, hour, day, (month : Int) - 1, year - 1900⟩).length
          = 23) := by
  have e : log_file_name ⟨second, minute, hour, day, (month : Int) - 1, year - 1900⟩
      = "log_".toList ++ intDecimal year ++ pad2_spec month ++ pad2_spec day ++ "_".toList
          ++ pad2_spec hour ++ pad2_spec minute ++ pad2_spec second ++ ".txt".toList := by
    unfold log_file_name
    simp only [sub_add_cancel, putInt_year, putInt_two month (by omega), putInt_two day (by omega),
      putInt_two hour (by omega), putInt_two minute (by omega), putInt_two second (by omega)]
  refine ⟨e, ?_⟩
  intro h1 h2
  rw [e]
  obtain ⟨y, rfl⟩ := Int.eq_ofNat_of_zero_le (by omega : 0 ≤ year)
  have hy : (decimal y).length = 4 := decimal_length_four y (by omega) (by omega)
  have hy' : (intDecimal (y : Int)).length = 4 := hy
  simp [pad2_spec, hy']

/-- Witness of `log_file_name_format` at 2024-01-02 03:04:05. -/
theorem log_file_name_format_witness :
    log_file_name ⟨5, 4, 3, 2, 0, 124⟩ = "log_20240102_030405.txt".toList
    ∧ (log_file_name ⟨5, 4, 3, 2, 0, 124⟩).length = 23 :=
  ⟨by decide,
    (log_file_name_format 2024 1 2 3 4 5 (by decide) (by decide) (by decide) (by decide)
      (by decide)).2 (by decide) (by decide)⟩

/-! ## The send loop -/

theorem sendLoop_nonpositive (self : SerialTwistCtlNode) (cmd : List Char)
    (io : Nat → WriteResult) (fuel : Nat) (h : self.send_attempts_ ≤ 0) :
    sendLoop self cmd io (fuel + 1) 0 = ([], Exit.returned) := by
  have : ¬ (0 : Int) < self.send_attempts_ := by omega
  simp [sendLoop, this]

theorem sendLoop_returns (self : SerialTwistCtlNode) (cmd : List Char)
    (io : Nat → WriteResult) (m : Nat) :
    ∀ (i fuel : Nat), self.send_attempts_ = ((i + m : Nat) : Int) → m < fuel →
      (∀ k, i ≤ k → k < i + m → io k ≠ WriteResult.threw) →
      sendLoop self cmd io fuel (i : Int)
        = ((List.range' i m).flatMap (fun (k : Nat) => attemptEvents self cmd (k : Int)),
            Exit.returned) := by
  induction m with
  | zero =>
    intro i fuel hn hf _
    obtain ⟨f, rfl⟩ : ∃ f, fuel = f + 1 := ⟨fuel - 1, by omega⟩
    have : ¬ (i : Int) < self.send_attempts_ := by rw [hn]; simp
    simp [sendLoop, this]
  | succ m ih =>
    intro i fuel hn hf hio
    obtain ⟨f, rfl⟩ : ∃ f, fuel = f + 1 := ⟨fuel - 1, by omega⟩
    have hlt : (i : Int) < self.send_attempts_ := by rw [hn]; push_cast; omega
    have hi := hio i (le_refl i) (by omega)
    have hrest := ih (i + 1) f (by rw [hn]; congr 1; omega) (by omega)
      (fun k hk1 hk2 => hio k (by omega) (by omega))
    have hcast : (i : Int) + 1 = ((i + 1 : Nat) : Int) := by push_cast; rfl
    cases hw : io i with
    | threw => exact absurd hw hi
    | returned b =>
      simp only [sendLoop, hlt, if_true, Int.toNat_ofNat, hw, hcast, hrest,
        List.range'_succ, List.flatMap_cons]

theorem sendLoop_throws (self : SerialTwistCtlNode) (cmd : List Char)
    (io : Nat → WriteResult) (m : Nat) :
    ∀ (i fuel : Nat), ((i + m : Nat) : Int) < self.send_attempts_ → m < fuel →
      (∀ k, i ≤ k → k < i + m → io k ≠ WriteResult.threw) →
      io (i + m) = WriteResult.threw →
      sendLoop self cmd io fuel (i : Int)
        = ((List.range' i m).flatMap (fun (k : Nat) => attemptEvents self cmd (k : Int))
            ++ [Event.serialWrite cmd], Exit.threw) := by
  induction m with
  | zero =>
    intro i fuel hn hf _ ht
    obtain ⟨f, rfl⟩ : ∃ f, fuel = f + 1 := ⟨fuel - 1, by omega⟩
    have hlt : (i : Int) < self.send_attempts_ := by simpa using hn
    have ht' : io i = WriteResult.threw := by simpa using ht
    simp [sendLoop, hlt, ht']
  | succ m ih =>
    intro i fuel hn hf hio ht
    obtain ⟨f, rfl⟩ : ∃ f, fuel = f + 1 := ⟨fuel - 1, by omega⟩
    have hlt : (i : Int) < self.send_attempts_ := by
      have : ((i : Nat) : Int) ≤ ((i + (m + 1) : Nat) : Int) := by push_cast; omega
      omega
    have hi := hio i (le_refl i) (by omega)
    have hrest := ih (i + 1) f (by rw [show i + 1 + m = i + (m + 1) by omega]; exact hn)
      (by omega) (fun k hk1 hk2 => hio k (by omega) (by omega))
      (by rw [show i + 1 + m = i + (m + 1) by omega]; exact ht)
    have hcast : (i : Int) + 1 = ((i + 1 : Nat) : Int) := by push_cast; rfl
    cases hw : io i with
    | threw => exact absurd hw hi
    | returned b =>
      simp only [sendLoop, hlt, if_true, Int.toNat_ofNat, hw, hcast, hrest,
        List.range'_succ, List.flatMap_cons, List.append_assoc]

/-- The handler when no write throws: every attempt runs, and the handler returns. -/
theorem twist_callback_returns (self : SerialTwistCtlNode) (x z : CFloat)
    (io : Nat → WriteResult) (n : Nat) (hn : self.send_attempts_ = (n : Int))
    (hio : ∀ k, k < n → io k ≠ WriteResult.threw) :
    twist_callback self x z io
      = ((List.range' 0 n).flatMap (fun (k : Nat) => attemptEvents self (command x z) (k : Int)),
          Exit.returned) := by
  unfold twist_callback
  have h := sendLoop_returns self (command x z) io n 0 (self.send_attempts_.toNat + 1)
    (by simpa using hn) (by rw [hn]; simp) (fun k _ hk => hio k (by omega))
  simpa using h

/-- The handler when the write of index `k` is the first to throw: the
attempts before it run in full, the failing write is the last event, and the
exception leaves the handler. -/
theorem twist_callback_throws (self : SerialTwistCtlNode) (x z : CFloat)
    (io : Nat → WriteResult) (k : Nat) (hk : (k : Int) < self.send_attempts_)
    (hio : ∀ j, j < k → io j ≠ WriteResult.threw) (ht : io k = WriteResult.threw) :
    twist_callback self x z io
      = ((List.range' 0 k).flatMap (fun (j : Nat) => attemptEvents self (command x z) (j : Int))
          ++ [Event.serialWrite (command x z)], Exit.threw) := by
  unfold twist_callback
  have h := sendLoop_throws self (command x z) io k 0 (self.send_attempts_.toNat + 1)
    (by simpa using hk) (by omega) (fun j _ hj => hio j (by omega)) (by simpa using ht)
  simpa using h

/-! ## Projections of the attempts -/

theorem writesOf_append (a b : List Event) : writesOf (a ++ b) = writesOf a ++ writesOf b := by
  induction a with
  | nil => rfl
  | cons e a ih => cases e <;> simp [writesOf, ih]

theorem recordsOf_append (a b : List Event) :
    recordsOf (a ++ b) = recordsOf a ++ recordsOf b := by
  induction a with
  | nil => rfl
  | cons e a ih => cases e <;> simp [recordsOf, ih]

theorem sleepsOf_append (a b : List Event) : sleepsOf (a ++ b) = sleepsOf a ++ sleepsOf b := by
  induction a with
  | nil => rfl
  | cons e a ih => cases e <;> simp [sleepsOf, ih]

theorem wireOf_append (a b : List Event) : wireOf (a ++ b) = wireOf a ++ wireOf b := by
  induction a with
  | nil => rfl
  | cons e a ih => cases e <;> simp [wireOf, ih]

theorem writesOf_attempts (self : SerialTwistCtlNode) (cmd : List Char) (m : Nat) :
    ∀ i, writesOf ((List.range' i m).flatMap (fun (k : Nat) => attemptEvents self cmd (k : Int)))
      = List.replicate m cmd := by
  induction m with
  | zero => intro i; rfl
  | succ m ih =>
    intro i
    rw [List.range'_succ, List.flatMap_cons, writesOf_append, ih (i + 1)]
    cases h : self.log_file_is_open <;> simp [attemptEvents, writesOf, h, List.replicate_succ]

theorem sleepsOf_attempts (self : SerialTwistCtlNode) (cmd : List Char) (m : Nat) :
    ∀ i, sleepsOf ((List.range' i m).flatMap (fun (k : Nat) => attemptEvents self cmd (k : Int)))
      = List.replicate m self.delay_between_attempts_ms_ := by
  induction m with
  | zero => intro i; rfl
  | succ m ih =>
    intro i
    rw [List.range'_succ, List.flatMap_cons, sleepsOf_append, ih (i + 1)]
    cases h : self.log_file_is_open <;> simp [attemptEvents, sleepsOf, h, List.replicate_succ]

theorem recordsOf_attempts (self : SerialTwistCtlNode) (cmd : List Char)
    (hopen : self.log_file_is_open = true) (m : Nat) :
    ∀ i, recordsOf ((List.range' i m).flatMap (fun (k : Nat) => attemptEvents self cmd (k : Int)))
      = (List.range' i m).map (fun (k : Nat) => logText ((k : Int) + 1) self.send_attempts_ cmd) := by
  induction m with
  | zero => intro i; rfl
  | succ m ih =>
    intro i
    rw [List.range'_succ, List.flatMap_cons, recordsOf_append, ih (i + 1)]
    simp [attemptEvents, recordsOf, hopen]

theorem wireOf_attempts (self : SerialTwistCtlNode) (cmd : List Char)
    (hopen : self.log_file_is_open = true) (m : Nat) :
    ∀ i, wireOf ((List.range' i m).flatMap (fun (k : Nat) => attemptEvents self cmd (k : Int)))
      = (List.range' i m).flatMap (fun (k : Nat) =>
          [Event.serialWrite cmd,
            Event.logRecord (logText ((k : Int) + 1) self.send_attempts_ cmd)]) := by
  induction m with
  | zero => intro i; rfl
  | succ m ih =>
    intro i
    rw [List.range'_succ, List.flatMap_cons, wireOf_append, ih (i + 1)]
    simp [attemptEvents, wireOf, hopen]

theorem construct_log_open (env : StartupEnv) (self : SerialTwistCtlNode)
    (h : (construct env).2 = some self) :
    self.log_file_is_open = true ∧ self.send_attempts_ = toInt32 env.send_attempts
      ∧ self.delay_between_attempts_ms_ = toInt32 env.delay_between_attempts_ms := by
  unfold construct at h
  simp only at h
  split at h
  · simp at h
  · split at h
    · simp at h
    · simp at h
    · split at h
      · simp at h
      · simp at h
        subst h
        exact ⟨rfl, rfl, rfl⟩

/-! ## The handler -/

/-- C1 (as the code has it): for every command and every attempt count
N >= 1 (and for N = 0 as well), an invocation in which no serial write throws
returns after exactly N writes and N log records, interleaved write 1, record 1, ..., write N,
record N with attempt numbers 1..N in increasing order, every write carrying
the same bytes, the `command` buffer. -/
theorem twist_callback_attempts (env : StartupEnv) (self : SerialTwistCtlNode)
    (x z : CFloat) (io : Nat → WriteResult) (n : Nat)
    (hself : (construct env).2 = some self) (hn : self.send_attempts_ = (n : Int))
    (hio : ∀ k, k < n → io k ≠ WriteResult.threw) :
    (twist_callback self x z io).2 = Exit.returned
    ∧ wireOf (twist_callback self x z io).1
        = (List.range' 0 n).flatMap (fun (k : Nat) =>
            [Event.serialWrite (command x z),
              Event.logRecord (logText ((k : Int) + 1) (n : Int) (command x z))])
    ∧ writesOf (twist_callback self x z io).1 = List.replicate n (command x z)
    ∧ (writesOf (twist_callback self x z io).1).length = n
    ∧ (recordsOf (twist_callback self x z io).1).length = n := by
  have hopen := (construct_log_open env self hself).1
  rw [twist_callback_returns self x z io n hn hio]
  refine ⟨rfl, ?_, ?_, ?_, ?_⟩
  · rw [wireOf_attempts self _ hopen, hn]
  · exact writesOf_attempts self _ n 0
  · simp [writesOf_attempts self _ n 0]
  · simp [recordsOf_attempts self _ hopen n 0]

/-- Witness of `twist_callback_attempts`: N = 3, linear_x = 0.5, angular_z = 0.0. -/
theorem twist_callback_attempts_witness :
    writesOf (twist_callback (goodNode 3 50) f_half f_zero ioOk).1
      = List.replicate 3 (command f_half f_zero)
    ∧ command f_half f_zero = "vcx=0.500,wc=0.000\n".toList :=
  ⟨(twist_callback_attempts (goodEnv 3 50) (goodNode 3 50) f_half f_zero ioOk 3
      (by decide) rfl (fun _ _ h => WriteResult.noConfusion h)).2.2.1,
    by decide⟩

/-- C1 as stated fails: with N = 2 and a first write that throws, the
invocation makes one write and no log record. -/
theorem twist_callback_first_write_throws :
    (construct (goodEnv 2 0)).2 = some (goodNode 2 0)
    ∧ (twist_callback (goodNode 2 0) f_half f_zero (ioThrowAt 0)).2 = Exit.threw
    ∧ (writesOf (twist_callback (goodNode 2 0) f_half f_zero (ioThrowAt 0)).1).length = 1
    ∧ recordsOf (twist_callback (goodNode 2 0) f_half f_zero (ioThrowAt 0)).1 = [] := by
  decide

/-- C2 (as the code has it): a write that fails by returning a short byte
count (a timeout) changes nothing: when no write throws, attempt k is logged
and the handler returns after all N attempts whatever the byte counts; a
write that throws at attempt k ends the handler there, with k writes made,
k-1 records logged, and no attempt after k. -/
theorem twist_callback_write_failure (env : StartupEnv) (self : SerialTwistCtlNode)
    (x z : CFloat) (io : Nat → WriteResult) (n k : Nat)
    (hself : (construct env).2 = some self) (hn : self.send_attempts_ = (n : Int))
    (hk1 : 1 ≤ k) (hkn : k ≤ n) (hbefore : ∀ j, j < k - 1 → io j ≠ WriteResult.threw) :
    ((∀ j, j < n → io j ≠ WriteResult.threw) →
        (twist_callback self x z io).2 = Exit.returned
        ∧ (recordsOf (twist_callback self x z io).1)[k - 1]?
            = some (logText (k : Int) (n : Int) (command x z))
        ∧ (writesOf (twist_callback self x z io).1).length = n
        ∧ (recordsOf (twist_callback self x z io).1).length = n)
    ∧ (io (k - 1) = WriteResult.threw →
        (twist_callback self x z io).2 = Exit.threw
        ∧ (writesOf (twist_callback self x z io).1).length = k
        ∧ (recordsOf (twist_callback self x z io).1).length = k - 1) := by
  have hopen := (construct_log_open env self hself).1
  constructor
  · intro hio
    rw [twist_callback_returns self x z io n hn hio]
    refine ⟨rfl, ?_, ?_, ?_⟩
    · rw [recordsOf_attempts self _ hopen n 0, hn, List.getElem?_map,
        List.getElem?_range' 0 1 (by omega : k - 1 < n)]
      simp only [Option.map_some']
      congr 2
      push_cast
      omega
    · simp [writesOf_attempts self _ n 0]
    · simp [recordsOf_attempts self _ hopen n 0]
  · intro ht
    rw [twist_callback_throws self x z io (k - 1) (by rw [hn]; omega) hbefore ht]
    refine ⟨rfl, ?_, ?_⟩
    · rw [writesOf_append, writesOf_attempts self _ (k - 1) 0]
      simp [writesOf]
      omega
    · rw [recordsOf_append, recordsOf_attempts self _ hopen (k - 1) 0]
      simp [recordsOf]

/-- Witness of `twist_callback_write_failure`: attempt 2 of 3 times out after
5 bytes; it is logged and all three attempts run. -/
theorem twist_callback_write_failure_witness :
    (recordsOf (twist_callback (goodNode 3 50) f_half f_zero (ioShortAt 1 5)).1)[1]?
      = some (logText 2 3 (command f_half f_zero))
    ∧ (writesOf (twist_callback (goodNode 3 50) f_half f_zero (ioShortAt 1 5)).1).length = 3 :=
  have h := (twist_callback_write_failure (goodEnv 3 50) (goodNode 3 50) f_half f_zero
    (ioShortAt 1 5) 3 2 (by decide) rfl (by decide) (by decide)
    (fun j _ => by unfold ioShortAt; split <;> exact WriteResult.noConfusion)).1
    (fun j _ => by unfold ioShortAt; split <;> exact WriteResult.noConfusion)
  ⟨h.2.1, h.2.2.1⟩

/-- C2 as stated fails: with N = 3 and a write that throws at attempt 2, the
handler is left by the exception; attempt 2 is not logged and attempt 3 does
not run (two writes, one record). -/
theorem twist_callback_second_write_throws :
    (construct (goodEnv 3 50)).2 = some (goodNode 3 50)
    ∧ (twist_callback (goodNode 3 50) f_half f_zero (ioThrowAt 1)).2 = Exit.threw
    ∧ (writesOf (twist_callback (goodNode 3 50) f_half f_zero (ioThrowAt 1)).1).length = 2
    ∧ recordsOf (twist_callback (goodNode 3 50) f_half f_zero (ioThrowAt 1)).1
        = [logText 1 3 (command f_half f_zero)] := by
  decide

/-- C5 (as the code has it): for every N >= 1 and delay d, an invocation in
which no serial write throws is, in order and for each attempt k = 1..N, the
write of attempt k, its log record, its console message and then one sleep of
duration d; so there are exactly N sleeps, one directly after the
write/record of each attempt, the last attempt included, the handler's last
action is a sleep and the total requested sleep time is N * d. -/
theorem twist_callback_sleeps (env : StartupEnv) (self : SerialTwistCtlNode)
    (x z : CFloat) (io : Nat → WriteResult) (n : Nat)
    (hself : (construct env).2 = some self) (hn : self.send_attempts_ = (n : Int))
    (h1 : 1 ≤ n) (hio : ∀ k, k < n → io k ≠ WriteResult.threw) :
    (twist_callback self x z io).1
        = (List.range' 0 n).flatMap (fun (k : Nat) =>
            [Event.serialWrite (command x z),
              Event.logRecord (logText ((k : Int) + 1) (n : Int) (command x z)),
              Event.rosInfo (infoText ((k : Int) + 1) (n : Int) (command x z)),
              Event.sleepMs self.delay_between_attempts_ms_])
    ∧ sleepsOf (twist_callback self x z io).1
        = List.replicate n self.delay_between_attempts_ms_
    ∧ (sleepsOf (twist_callback self x z io).1).length = n
    ∧ (sleepsOf (twist_callback self x z io).1).sum = n * self.delay_between_attempts_ms_
    ∧ (twist_callback self x z io).1.getLast?
        = some (Event.sleepMs self.delay_between_attempts_ms_) := by
  have hopen := (construct_log_open env self hself).1
  rw [twist_callback_returns self x z io n hn hio]
  refine ⟨?_, ?_, ?_, ?_, ?_⟩
  · simp only [attemptEvents, hopen, if_true, hn, List.cons_append, List.nil_append]
  · exact sleepsOf_attempts self _ n 0
  · simp [sleepsOf_attempts self _ n 0]
  · simp [sleepsOf_attempts self _ n 0]
  · obtain ⟨m, rfl⟩ : ∃ m, n = m + 1 := ⟨n - 1, by omega⟩
    rw [List.range'_concat, List.flatMap_append]
    simp [attemptEvents, List.getLast?_append, hopen]

/-- Witness of `twist_callback_sleeps`: with N = 2 and d = 50 ms the trace is
write, record, message, sleep, write, record, message, sleep. -/
theorem twist_callback_sleeps_witness :
    (twist_callback (goodNode 2 50) f_half f_zero ioOk).1
      = [Event.serialWrite (command f_half f_zero),
          Event.logRecord (logText 1 2 (command f_half f_zero)),
          Event.rosInfo (infoText 1 2 (command f_half f_zero)),
          Event.sleepMs 50,
          Event.serialWrite (command f_half f_zero),
          Event.logRecord (logText 2 2 (command f_half f_zero)),
          Event.rosInfo (infoText 2 2 (command f_half f_zero)),
          Event.sleepMs 50] :=
  (twist_callback_sleeps (goodEnv 2 50) (goodNode 2 50) f_half f_zero ioOk 2 (by decide) rfl
    (by decide) (fun _ _ h => WriteResult.noConfusion h)).1

/-- C5 as stated fails: with N = 3 and d = 50 ms the handler sleeps three
times, 150 ms in total and not 100 ms, and its last action, after the record
of attempt 3, is a sleep. -/
theorem twist_callback_trailing_sleep :
    (sleepsOf (twist_callback (goodNode 3 50) f_half f_zero ioOk).1).length = 3
    ∧ (sleepsOf (twist_callback (goodNode 3 50) f_half f_zero ioOk).1).sum = 150
    ∧ (twist_callback (goodNode 3 50) f_half f_zero ioOk).1.getLast?
        = some (Event.sleepMs 50) := by
  decide

/-- C6 (as the code has it): for every command, every N >= 1 and every
attempt i in 1..N, in an invocation in which no serial write throws the text
appended to the log file for attempt i is the label `发送命令 (`, decimal i,
`/`, decimal N, `): `, the `command` buffer with its own terminator, and the
line end of `std::endl`; there is one record per attempt, and when the
formatted line fits the buffer each record ends with two line terminators. -/
theorem twist_callback_log_text (env : StartupEnv) (self : SerialTwistCtlNode)
    (x z : CFloat) (io : Nat → WriteResult) (n i : Nat)
    (hself : (construct env).2 = some self) (hn : self.send_attempts_ = (n : Int))
    (hi1 : 1 ≤ i) (hin : i ≤ n) (hio : ∀ k, k < n → io k ≠ WriteResult.threw) :
    (recordsOf (twist_callback self x z io).1)[i - 1]?
        = some ("发送命令 (".toList ++ decimal i ++ "/".toList ++ decimal n ++ "): ".toList
            ++ command x z ++ "\n".toList)
    ∧ (recordsOf (twist_callback self x z io).1).length = n
    ∧ ((formatLine x z).length ≤ 49 →
        (recordsOf (twist_callback self x z io).1)[i - 1]?
          = some ("发送命令 (".toList ++ decimal i ++ "/".toList ++ decimal n ++ "): ".toList
              ++ ("vcx=".toList ++ fmt_f3 x ++ ",wc=".toList ++ fmt_f3 z)
              ++ "\n\n".toList)) := by
  have hopen := (construct_log_open env self hself).1
  have hrec : (recordsOf (twist_callback self x z io).1)[i - 1]?
      = some ("发送命令 (".toList ++ decimal i ++ "/".toList ++ decimal n ++ "): ".toList
          ++ command x z ++ "\n".toList) := by
    rw [twist_callback_returns self x z io n hn hio, recordsOf_attempts self _ hopen n 0, hn,
      List.getElem?_map, List.getElem?_range' 0 1 (by omega : i - 1 < n)]
    simp only [Option.map_some']
    have e : ((0 + 1 * (i - 1) : Nat) : Int) + 1 = (i : Int) := by omega
    rw [e]
    rfl
  refine ⟨hrec, ?_, ?_⟩
  · rw [twist_callback_returns self x z io n hn hio]
    simp [recordsOf_attempts self _ hopen n 0]
  · intro hfit
    rw [hrec, command_of_fits x z hfit]
    simp [formatLine]

/-- Witness of `twist_callback_log_text`: attempt 2 of 3 for (0.5, 0.0). -/
theorem twist_callback_log_text_witness :
    (recordsOf (twist_callback (goodNode 3 50) f_half f_zero ioOk).1)[1]?
      = some "发送命令 (2/3): vcx=0.500,wc=0.000\n\n".toList :=
  (twist_callback_log_text (goodEnv 3 50) (goodNode 3 50) f_half f_zero ioOk 3 2
    (by decide) rfl (by decide) (by decide) (fun _ _ h => WriteResult.noConfusion h)).1

/-- C6 as stated fails: for N = 1 and (0.5, 0.0) the text appended for
attempt 1 is not `Sent command (1/1): vcx=0.500,wc=0.000` with one line
terminator: its label differs and it holds two line terminators. -/
theorem twist_callback_log_text_differs :
    (construct (goodEnv 1 0)).2 = some (goodNode 1 0)
    ∧ recordsOf (twist_callback (goodNode 1 0) f_half f_zero ioOk).1
        = ["发送命令 (1/1): vcx=0.500,wc=0.000\n\n".toList]
    ∧ recordsOf (twist_callback (goodNode 1 0) f_half f_zero ioOk).1
        ≠ [logText_spec 1 1 "vcx=0.500,wc=0.000".toList]
    ∧ ("发送命令 (1/1): vcx=0.500,wc=0.000\n\n".toList).count '\n' = 2 := by
  decide

/-! ## Start-up and the entry point -/

theorem toInt32_of_range (v : Int) (h1 : -2 ^ 31 ≤ v) (h2 : v < 2 ^ 31) : toInt32 v = v := by
  unfold toInt32
  omega

/-- C4 (as the code has it): a non-positive `send_attempts` is accepted and
silently disables transmission: start-up does not depend on the value, so it
succeeds whenever the log file and the serial port open, and the handler of
the node built then makes no serial write, no log record and no sleep for
any command. -/
theorem nonpositive_attempts_send_nothing (env : StartupEnv)
    (hlo : -2 ^ 31 ≤ env.send_attempts) (hhi : env.send_attempts ≤ 0) :
    (env.log_open_ok = true → env.serial_open = OpenResult.returned →
        env.serial_isOpen = true → ∃ self, (construct env).2 = some self)
    ∧ (∀ self, (construct env).2 = some self →
        ∀ (x z : CFloat) (io : Nat → WriteResult),
          twist_callback self x z io = ([], Exit.returned)) := by
  constructor
  · intro h1 h2 h3
    simp [construct, h1, h2, h3]
  · intro self hself x z io
    have hs := (construct_log_open env self hself).2.1
    have hle : self.send_attempts_ ≤ 0 := by
      rw [hs, toInt32_of_range env.send_attempts hlo (by omega)]
      exact hhi
    exact sendLoop_nonpositive self _ io _ hle

/-- Witness of `nonpositive_attempts_send_nothing` at `send_attempts = 0`. -/
theorem nonpositive_attempts_send_nothing_witness :
    twist_callback (goodNode 0 0) f_half f_zero ioOk = ([], Exit.returned) :=
  (nonpositive_attempts_send_nothing (goodEnv 0 0) (by decide) (by decide)).2
    (goodNode 0 0) (by decide) f_half f_zero ioOk

/-- C4 as stated fails: with `send_attempts = 0` start-up succeeds and a
handled command produces no serial write. -/
theorem zero_attempts_no_write :
    (construct (goodEnv 0 0)).2 = some (goodNode 0 0)
    ∧ writesOf (twist_callback (goodNode 0 0) f_half f_zero ioOk).1 = []
    ∧ writesOf (main (goodEnv 0 0) [⟨f_half, f_zero, ioOk⟩]).1 = [] := by
  decide

theorem main_of_construct_none (env : StartupEnv) (msgs : List Delivery)
    (h : (construct env).2 = none) :
    (main env msgs).1
      = Event.rosInit :: (construct env).1
          ++ [Event.cerr "节点启动失败: ".toList, Event.rosShutdown] := by
  simp [main, h]

/-- C7 (as the code has it): `main` returns status 0 in every run; on a
start-up failure the exception is caught, a diagnostic goes to `cerr`, no
subscription is created, and the status is still 0. -/
theorem main_status_zero (env : StartupEnv) (msgs : List Delivery) :
    (main env msgs).2 = 0
    ∧ ((construct env).2 = none →
        (main env msgs).1
          = Event.rosInit :: (construct env).1
              ++ [Event.cerr "节点启动失败: ".toList, Event.rosShutdown]) :=
  ⟨rfl, main_of_construct_none env msgs⟩

/-- Witness of `main_status_zero`: the log file cannot be opened. -/
theorem main_status_zero_witness :
    (main logFailEnv []).1
      = Event.rosInit :: (construct logFailEnv).1
          ++ [Event.cerr "节点启动失败: ".toList, Event.rosShutdown] :=
  (main_status_zero logFailEnv []).2 (by decide)

/-- C7 as stated fails: when the log file cannot be opened, and when the
serial open call throws, the node is not constructed and `main` returns 0. -/
theorem main_zero_on_startup_failure :
    (construct logFailEnv).2 = none ∧ (main logFailEnv []).2 = 0
    ∧ (construct serialFailEnv).2 = none ∧ (main serialFailEnv []).2 = 0 := by
  decide

theorem subscribes_append (a b : List Event) :
    subscribes (a ++ b) = (subscribes a || subscribes b) := by
  induction a with
  | nil => rfl
  | cons e a ih => cases e <;> simp [subscribes, ih]

/-- C8: if the serial open call throws, or the handle reports not-open after
the call, the constructor throws before it creates the subscription; in that
run of `main` no subscription exists, no delivered command is handled (the
trace does not depend on the deliveries) and the serial write is never called. -/
theorem serial_open_failure_no_subscription (env : StartupEnv) (msgs : List Delivery)
    (h : env.serial_open ≠ OpenResult.returned ∨ env.serial_isOpen = false) :
    (construct env).2 = none
    ∧ subscribes (construct env).1 = false
    ∧ subscribes (main env msgs).1 = false
    ∧ writesOf (main env msgs).1 = []
    ∧ main env msgs = main env [] := by
  have hc : (construct env).2 = none ∧ subscribes (construct env).1 = false
      ∧ writesOf (construct env).1 = [] := by
    unfold construct
    cases hl : env.log_open_ok
    · simp [subscribes, writesOf]
    · cases ho : env.serial_open
      · cases hi : env.serial_isOpen
        · simp [subscribes, writesOf]
        · rcases h with h | h
          · exact absurd ho h
          · rw [hi] at h; exact absurd h (by decide)
      · simp [subscribes, writesOf]
      · simp [subscribes, writesOf]
  obtain ⟨h1, h2, h3⟩ := hc
  have hm := main_of_construct_none env msgs h1
  have hm0 := main_of_construct_none env [] h1
  refine ⟨h1, h2, ?_, ?_, ?_⟩
  · rw [hm]
    simp [subscribes, subscribes_append, h2]
  · rw [hm]
    simp [writesOf, writesOf_append, h3]
  · exact Prod.ext (hm.trans hm0.symm) rfl

/-- Witness of `serial_open_failure_no_subscription`: the open call throws
while a command is waiting to be delivered. -/
theorem serial_open_failure_no_subscription_witness :
    writesOf (main serialFailEnv [⟨f_half, f_zero, ioOk⟩]).1 = []
    ∧ subscribes (main serialFailEnv [⟨f_half, f_zero, ioOk⟩]).1 = false :=
  have h := serial_open_failure_no_subscription serialFailEnv [⟨f_half, f_zero, ioOk⟩]
    (Or.inl (by decide))
  ⟨h.2.2.2.1, h.2.2.1⟩

end SerialTwistCtl
